import Mathlib

/-!
Shallow embedding of the versioned snapshot cache manager of the
`ymsd-sleeper-api` repository (`version_manager.py`, `database_manager.py`,
`config.py`), together with theorems settling the frozen claims about it.

Modelling conventions:
* version identifiers, actor names and messages are `String`s, exactly as in
  the source;
* ISO-8601 timestamps compare by string order in the source, so they are
  modelled as `Nat` (the order is all the code uses);
* the S3 object store is abstracted to the data the code extracts from it:
  the manifest listing becomes a list of `(version, uploadedAt)` pairs and
  the per-version snapshot objects become boolean fields of a `RemoteStore`;
* filesystem contents (pointer file, cached database and manifest files)
  are explicit fields of the state records, and every function is the
  straight-line functional translation of the corresponding Python method,
  returning its updated state instead of mutating in place.
-/

namespace YmsdSleeper

abbrev Version := String

/-- One entry of `VersionManager.get_available_versions`'s result: the
version extracted from the manifest key together with the `uploaded_at`
timestamp the code sorts by (`version_manager.py` lines 42-88).  The other
dictionary fields (`manifest_key`, `total_files`, `total_size`,
`database_info`) are not consulted by any claimed behaviour. -/
structure VersionInfo where
  version : Version
  uploadedAt : Nat
  deriving Repr, DecidableEq

/-- Stable insertion into a list sorted newest-first by `uploadedAt`;
`insertDesc` places `x` before the first element that does not strictly
precede it, which reproduces the stability of Python's `list.sort`. -/
def insertDesc (x : VersionInfo) : List VersionInfo → List VersionInfo
  | [] => [x]
  | y :: ys => if x.uploadedAt < y.uploadedAt then y :: insertDesc x ys else x :: y :: ys

/-- `versions.sort(key=lambda x: x['uploaded_at'], reverse=True)`
(`version_manager.py` line 87): stable sort, newest first. -/
def sortDesc (l : List VersionInfo) : List VersionInfo := l.foldr insertDesc []

/-- The record `promote_version` serializes into `current_version.json`
(`version_manager.py` lines 130-136). -/
structure PointerRecord where
  version : Version
  previous_version : Option Version
  promoted_at : Nat
  promoted_by : String
  force_promotion : Bool
  deriving Repr, DecidableEq

/-- State visible to `VersionManager`: the parsed S3 manifest listing (in
listing order, before the sort), the parsed contents of the pointer file
(`none` when the file is absent or unparseable, which the code treats as
"no current version"), the set of cached database and manifest files keyed
by version, and the current wall-clock time. -/
structure VMState where
  catalog : List VersionInfo
  pointerFile : Option PointerRecord
  cachedDb : List Version
  cachedManifest : List Version
  now : Nat
  deriving Repr, DecidableEq

namespace VersionManager

/-- `VersionManager.get_available_versions` (`version_manager.py` lines
33-92): builds one entry per manifest object and sorts newest-first by
`uploaded_at`. -/
def get_available_versions (s : VMState) : List VersionInfo :=
  sortDesc s.catalog

/-- `VersionManager.get_current_version` (`version_manager.py` lines
94-104): reads `version_data.get('version')` from the pointer file,
returning `None` when the file is absent or unreadable. -/
def get_current_version (s : VMState) : Option Version :=
  s.pointerFile.map PointerRecord.version

/-- `VersionManager._invalidate_cache` (`version_manager.py` lines
152-169): unlinks the cached database and manifest files for `version`
when present. -/
def _invalidate_cache (version : Version) (s : VMState) : VMState :=
  { s with
    cachedDb := s.cachedDb.filter (fun x => decide (x ≠ version))
    cachedManifest := s.cachedManifest.filter (fun x => decide (x ≠ version)) }

/-- The `version_data` dictionary built by `promote_version`
(`version_manager.py` lines 130-136). -/
def promotedRecord (version : Version) (force : Bool) (s : VMState) : PointerRecord :=
  { version := version
    previous_version := get_current_version s
    promoted_at := s.now
    promoted_by := "version_manager"
    force_promotion := force }

/-- The state updates a successful `promote_version` performs
(`version_manager.py` lines 126-143): overwrite the pointer file with the
new record, then invalidate the old version's cached files when a previous
version existed and differs from the new one (the Python guard
`if current_version and current_version != version` also treats the empty
string as no previous version). -/
def promoteApply (version : Version) (force : Bool) (s : VMState) : VMState :=
  let s1 := { s with pointerFile := some (promotedRecord version force s) }
  match get_current_version s with
  | some cv => if cv ≠ "" ∧ cv ≠ version then _invalidate_cache cv s1 else s1
  | none => s1

/-- `VersionManager.promote_version` (`version_manager.py` lines 106-150):
validates the candidate against the listing unless forced, then applies
the pointer rewrite and cache invalidation.  Returns the
`(success, message)` pair the method returns. -/
def promote_version (version : Version) (force : Bool) (s : VMState) :
    VMState × Bool × String :=
  if ((get_available_versions s).any (fun v => v.version == version)) = false
      ∧ force = false then
    (s, false, "Version " ++ version ++ " not found in available versions")
  else
    (promoteApply version force s, true, "Version " ++ version ++ " promoted successfully")

/-- The newest-first ranking `cleanup_old_versions` iterates over
(`version_manager.py` lines 255-260): the already sorted listing, sorted
again. -/
def rankedVersions (s : VMState) : List VersionInfo :=
  sortDesc (get_available_versions s)

/-- The `versions_to_remove` loop of `cleanup_old_versions`
(`version_manager.py` lines 262-268): walking the ranking with index `i`,
a version is scheduled for removal when it differs from the current
version and `i >= keep_count`. -/
def versionsToRemove (current : Option Version) (keep_count : Nat) :
    Nat → List VersionInfo → List Version
  | _, [] => []
  | i, vi :: rest =>
    if some vi.version ≠ current ∧ keep_count ≤ i then
      vi.version :: versionsToRemove current keep_count (i + 1) rest
    else
      versionsToRemove current keep_count (i + 1) rest

/-- `VersionManager.cleanup_old_versions` (`version_manager.py` lines
239-284): ranks all known versions newest-first, schedules every version
that is not current and ranks at position `keep_count` or later, removes
the cached database and manifest files of each, and returns the count and
the identifiers removed. -/
def cleanup_old_versions (keep_count : Nat) (s : VMState) :
    VMState × Nat × List Version :=
  let current := get_current_version s
  let toRemove := versionsToRemove current keep_count 0 (rankedVersions s)
  let s2 := toRemove.foldl (fun st v => _invalidate_cache v st) s
  (s2, toRemove.length, toRemove)

end VersionManager

/-- Observable contents of the pointer file: absent, truncated to zero
bytes, or holding a serialized record. -/
inductive PointerFileContent where
  | absent
  | truncated
  | record (r : PointerRecord)
  deriving Repr, DecidableEq

/-- The on-disk content corresponding to a parsed pointer state. -/
def encodePointer : Option PointerRecord → PointerFileContent
  | none => .absent
  | some r => .record r

/-- What `get_current_version` recovers from a given on-disk content: the
`version` field of a parseable record, `None` otherwise (an absent or
truncated file fails to parse and is treated as "no current version"). -/
def readVersionField : PointerFileContent → Option Version
  | .record r => some r.version
  | _ => none

/-- The successive on-disk states of the pointer file while
`promote_version` rewrites it (`version_manager.py` lines 138-139):
`open(version_file, 'w')` truncates the file in place before `json.dump`
writes the new record, so the write passes through a truncated state.
There is no temporary file and no rename. -/
def promoteWriteObservables (version : Version) (force : Bool) (s : VMState) :
    List PointerFileContent :=
  [encodePointer s.pointerFile, .truncated,
   .record (VersionManager.promotedRecord version force s)]

/-! ## DatabaseManager (`database_manager.py`) -/

/-- `DATABASE_CACHE_TTL = 3600` (`config.py` line 34). -/
def DATABASE_CACHE_TTL : Nat := 3600

/-- `MAX_CACHE_SIZE_GB = 5` (`config.py` line 35) converted to bytes as in
`cleanup_old_cache` (`database_manager.py` line 345). -/
def MAX_CACHE_SIZE_BYTES : Nat := 5 * 1024 * 1024 * 1024

/-- The S3 object store as seen by `DatabaseManager`: which versions have a
manifest object, whether a version's manifest lists a
`type = "database_snapshot"` entry, whether the object the manifest points
to actually exists, whether a downloaded copy passes
`_verify_database_integrity`, and the downloaded file's byte size. -/
structure RemoteStore where
  manifests : List Version
  snapshotEntry : Version → Bool
  snapshotPresent : Version → Bool
  snapshotIntact : Version → Bool
  snapshotSize : Version → Nat

/-- One cached `database_{version}.sqlite` file: its version key, its
last-modified time, whether opening it and querying `WeeklyStats` succeeds
(`_verify_database_integrity`), and its byte size. -/
structure DbCacheFile where
  version : Version
  mtime : Nat
  intact : Bool
  size : Nat
  deriving Repr, DecidableEq

/-- State visible to `DatabaseManager`: the remote store, the parsed
`version` field of the pointer file, the cached database and manifest
files, the handle state (`_db_connection` as the id of the open sqlite
connection, `_current_version`), a counter supplying fresh handle ids, and
the current wall-clock time. -/
structure DBState where
  store : RemoteStore
  pointer : Option Version
  dbCache : List DbCacheFile
  manifestCache : List Version
  connVersion : Option Version
  conn : Option Nat
  nextId : Nat
  now : Nat

/-- Instrumentation events recording the externally visible actions of
`DatabaseManager` methods: the two `download_file` calls, runs of
`_verify_database_integrity`, and closes/opens of the held
`_db_connection`. -/
inductive Event where
  | getManifest (v : Version)
  | getSnapshot (v : Version)
  | integrityCheck (v : Version)
  | closeHandle (id : Nat)
  | openHandle (id : Nat)
  deriving Repr, DecidableEq

namespace DatabaseManager

/-- `DatabaseManager.is_cache_valid` (`database_manager.py` lines 76-93):
false when no cached file exists or its age exceeds the TTL; otherwise the
result of the integrity check (which opens the file, recorded as an
`integrityCheck` event). -/
def is_cache_valid (s : DBState) (version : Version) : Bool × List Event :=
  match s.dbCache.find? (fun f => f.version == version) with
  | none => (false, [])
  | some f =>
    if DATABASE_CACHE_TTL < s.now - f.mtime then (false, [])
    else (f.intact, [Event.integrityCheck version])

/-- `DatabaseManager.download_database_from_s3` (`database_manager.py`
lines 112-163): downloads the manifest to the manifest cache, locates the
`database_snapshot` entry, downloads the database file (its mtime becomes
the current time), verifies it, and unlinks it again when the integrity
check fails.  Any S3 failure is caught and reported as `False`. -/
def download_database_from_s3 (s : DBState) (version : Version) :
    DBState × Bool × List Event :=
  if version ∈ s.store.manifests then
    let s1 := { s with manifestCache :=
      if version ∈ s.manifestCache then s.manifestCache else version :: s.manifestCache }
    if s.store.snapshotEntry version then
      if s.store.snapshotPresent version then
        let f : DbCacheFile :=
          { version := version, mtime := s.now,
            intact := s.store.snapshotIntact version,
            size := s.store.snapshotSize version }
        let s2 := { s1 with dbCache := f :: s1.dbCache.filter (fun g => g.version != version) }
        if s.store.snapshotIntact version then
          (s2, true, [Event.getManifest version, Event.getSnapshot version,
                      Event.integrityCheck version])
        else
          ({ s2 with dbCache := s2.dbCache.filter (fun g => g.version != version) }, false,
           [Event.getManifest version, Event.getSnapshot version,
            Event.integrityCheck version])
      else (s1, false, [Event.getManifest version, Event.getSnapshot version])
    else (s1, false, [Event.getManifest version])
  else (s, false, [Event.getManifest version])

/-- Lines 183-187 of `database_manager.py`: inside the update branch of
`get_database_connection`, re-check `is_cache_valid` and download when the
cached copy is missing or invalid; report whether a valid copy is now in
place. -/
def acquireEnsure (s : DBState) (version : Version) : DBState × Bool × List Event :=
  if (is_cache_valid s version).1 = false then
    let d := download_database_from_s3 s version
    (d.1, d.2.1, (is_cache_valid s version).2 ++ d.2.2)
  else (s, true, (is_cache_valid s version).2)

/-- Lines 189-198 of `database_manager.py`: close the previously held
connection if any, then open a fresh connection to the cached file of
`version` and rebind the manager's handle state to it. -/
def acquireOpen (s1 : DBState) (version : Version) : DBState × Option Nat × List Event :=
  let closeEv : List Event :=
    match s1.conn with
    | some h => [Event.closeHandle h]
    | none => []
  ({ s1 with
      conn := some s1.nextId
      connVersion := some version
      nextId := s1.nextId + 1 },
   some s1.nextId, closeEv ++ [Event.openHandle s1.nextId])

/-- `DatabaseManager.get_database_connection` (`database_manager.py` lines
165-206): resolves the version (falling back to the pointer file; Python's
`if not version` also rejects the empty string), takes the fast path when
the held connection is already bound to a valid cached copy of that
version, and otherwise ensures a valid cached copy (`acquireEnsure`) and
rebinds the handle (`acquireOpen`).  The event list reproduces the calls
the method makes, including the short-circuit evaluation of
`self._current_version != version or not self.is_cache_valid(version) or
self._db_connection is None` and the second `is_cache_valid` call inside
the update branch. -/
def get_database_connection (s : DBState) (vOpt : Option Version) :
    DBState × Option Nat × List Event :=
  match (match vOpt with | none => s.pointer | some v => some v) with
  | none => (s, none, [])
  | some version =>
    if version = "" then (s, none, [])
    else
      let condEv : List Event :=
        if s.connVersion = some version then (is_cache_valid s version).2 else []
      if s.connVersion ≠ some version ∨ (is_cache_valid s version).1 = false
          ∨ s.conn = none then
        if (acquireEnsure s version).2.1 then
          ((acquireOpen (acquireEnsure s version).1 version).1,
           (acquireOpen (acquireEnsure s version).1 version).2.1,
           condEv ++ (acquireEnsure s version).2.2
             ++ (acquireOpen (acquireEnsure s version).1 version).2.2)
        else ((acquireEnsure s version).1, none, condEv ++ (acquireEnsure s version).2.2)
      else (s, s.conn, condEv)

/-- Total byte size of a set of cached files, as summed by
`cleanup_old_cache` (`database_manager.py` lines 344 and 360). -/
def totalSize (files : List DbCacheFile) : Nat :=
  (files.map DbCacheFile.size).sum

/-- Stable insertion into a list sorted oldest-first by `mtime`,
reproducing `db_files.sort(key=lambda f: f.stat().st_mtime)`. -/
def insertAscMtime (x : DbCacheFile) : List DbCacheFile → List DbCacheFile
  | [] => [x]
  | y :: ys => if y.mtime < x.mtime then y :: insertAscMtime x ys else x :: y :: ys

/-- `database_manager.py` line 351: sort cached files oldest-modified
first. -/
def sortAscMtime (l : List DbCacheFile) : List DbCacheFile :=
  l.foldr insertAscMtime []

/-- The deletion loop of `cleanup_old_cache` (`database_manager.py` lines
354-362): walk the files oldest-first, skip the file named
`database_{current_version}.sqlite`, unlink each other file, recompute the
directory's total size after each deletion, and stop as soon as the total
is within the limit.  `queue` is the snapshot list the `for` loop iterates
over; `dir` is the live directory contents. -/
def cleanupCacheGo (current : Option Version) (maxBytes : Nat) :
    List DbCacheFile → List DbCacheFile → List DbCacheFile
  | [], dir => dir
  | f :: rest, dir =>
    if some f.version = current then cleanupCacheGo current maxBytes rest dir
    else
      let dir1 := dir.filter (fun g => g.version != f.version)
      if totalSize dir1 ≤ maxBytes then dir1
      else cleanupCacheGo current maxBytes rest dir1

/-- Size-bounded eviction over an arbitrary byte budget: the body of
`cleanup_old_cache` (`database_manager.py` lines 334-365) with the limit
as a parameter. -/
def evictToBudget (current : Option Version) (maxBytes : Nat)
    (files : List DbCacheFile) : List DbCacheFile :=
  if maxBytes < totalSize files then
    cleanupCacheGo current maxBytes (sortAscMtime files) files
  else files

/-- `DatabaseManager.cleanup_old_cache` (`database_manager.py` lines
334-365): size-bounded eviction of the database cache against the
configured `MAX_CACHE_SIZE_GB` limit, protecting the version recorded in
the pointer file. -/
def cleanup_old_cache (s : DBState) : DBState :=
  { s with dbCache := evictToBudget s.pointer MAX_CACHE_SIZE_BYTES s.dbCache }

end DatabaseManager

/-- The held connections of a manager instance: `_db_connection` is one
sqlite handle or `None`. -/
def heldList (s : DBState) : List Nat :=
  match s.conn with
  | some h => [h]
  | none => []

/-- Whether an event opens or closes a held connection. -/
def isHandleEvent : Event → Bool
  | .openHandle _ => true
  | .closeHandle _ => true
  | _ => false

/-- Replay the handle events of a trace over a set of open held
connections. -/
def applyHandleEvents : List Event → List Nat → List Nat
  | [], hs => hs
  | .openHandle h :: es, hs => applyHandleEvents es (h :: hs)
  | .closeHandle h :: es, hs => applyHandleEvents es (hs.filter (fun x => x != h))
  | _ :: es, hs => applyHandleEvents es hs

/-- The largest number of simultaneously open held connections along a
trace (the count is sampled before each event and after the last). -/
def maxOpenAlong : List Event → List Nat → Nat
  | [], hs => hs.length
  | .openHandle h :: es, hs => max hs.length (maxOpenAlong es (h :: hs))
  | .closeHandle h :: es, hs => max hs.length (maxOpenAlong es (hs.filter (fun x => x != h)))
  | _ :: es, hs => max hs.length (maxOpenAlong es hs)

/-! ## Concrete states used as witnesses and counterexamples -/

/-- Five published versions, `v5` the newest (the scenario of the spec's
`cleanup_old_versions(keep_count=2)` example). -/
def fiveCatalog : List VersionInfo :=
  [⟨"v1", 1⟩, ⟨"v2", 2⟩, ⟨"v3", 3⟩, ⟨"v4", 4⟩, ⟨"v5", 5⟩]

/-- A `VersionManager` state with `v5` current and all five versions
cached. -/
def fiveS : VMState :=
  { catalog := fiveCatalog
    pointerFile := some ⟨"v5", some "v4", 5, "version_manager", false⟩
    cachedDb := ["v1", "v2", "v3", "v4", "v5"]
    cachedManifest := ["v1", "v2", "v3", "v4", "v5"]
    now := 10 }

/-- Same catalog and caches as `fiveS` but with `v0` recorded as current. -/
def fiveS0 : VMState :=
  { fiveS with pointerFile := some ⟨"v0", none, 4, "version_manager", true⟩ }

/-- A state whose current version `v9` is absent from the catalog (it was
force-promoted earlier). -/
def orphanS : VMState :=
  { catalog := [⟨"v1", 1⟩]
    pointerFile := some ⟨"v9", none, 3, "version_manager", true⟩
    cachedDb := ["v9"]
    cachedManifest := ["v9"]
    now := 7 }

/-! ## Helper lemmas -/

namespace VersionManager

theorem mem_insertDesc {a x : VersionInfo} {l : List VersionInfo} :
    a ∈ insertDesc x l ↔ a = x ∨ a ∈ l := by
  induction l with
  | nil => simp [insertDesc]
  | cons y ys ih =>
    simp only [insertDesc]
    split
    · simp [ih]; tauto
    · simp

theorem mem_sortDesc {a : VersionInfo} {l : List VersionInfo} :
    a ∈ sortDesc l ↔ a ∈ l := by
  induction l with
  | nil => simp [sortDesc]
  | cons x xs ih =>
    simp only [sortDesc, List.foldr_cons] at *
    rw [mem_insertDesc, ih]
    simp

theorem any_version_of_mem {l : List VersionInfo} {V : Version}
    (h : V ∈ l.map VersionInfo.version) :
    l.any (fun v => v.version == V) = true := by
  simp only [List.any_eq_true, List.mem_map] at *
  obtain ⟨vi, hvi, hv⟩ := h
  exact ⟨vi, hvi, by simp [hv]⟩

theorem pointerFile_invalidate (v : Version) (s : VMState) :
    (_invalidate_cache v s).pointerFile = s.pointerFile := rfl

theorem promoteApply_pointerFile (V : Version) (force : Bool) (s : VMState) :
    (promoteApply V force s).pointerFile = some (promotedRecord V force s) := by
  unfold promoteApply
  cases hc : get_current_version s
  · rfl
  · simp only
    split
    · rfl
    · rfl

/-- The pointer file written by a successful `promote_version`. -/
theorem promote_pointerFile {V : Version} {force : Bool} {s : VMState}
    (h : (promote_version V force s).2.1 = true) :
    (promote_version V force s).1.pointerFile = some (promotedRecord V force s) := by
  by_cases hc : ((get_available_versions s).any fun v => v.version == V) = false
      ∧ force = false
  · unfold promote_version at h
    rw [if_pos hc] at h
    simp at h
  · unfold promote_version
    rw [if_neg hc]
    exact promoteApply_pointerFile V force s

theorem promote_of_mem {V : Version} {s : VMState} (force : Bool)
    (hmem : V ∈ (get_available_versions s).map VersionInfo.version) :
    promote_version V force s
      = (promoteApply V force s, true, "Version " ++ V ++ " promoted successfully") := by
  unfold promote_version
  rw [if_neg]
  rintro ⟨hfalse, -⟩
  rw [any_version_of_mem hmem] at hfalse
  cases hfalse

theorem promote_succeeds_of_mem {V : Version} {s : VMState} (force : Bool)
    (hmem : V ∈ (get_available_versions s).map VersionInfo.version) :
    (promote_version V force s).2.1 = true := by
  rw [promote_of_mem force hmem]

/-- `promote_version` succeeds and applies its state updates whenever the
candidate appears in the listing or the promotion is forced — the two ways
past the validation guard. -/
theorem promote_applies {V : Version} {s : VMState} (force : Bool)
    (h : V ∈ (get_available_versions s).map VersionInfo.version ∨ force = true) :
    promote_version V force s
      = (promoteApply V force s, true, "Version " ++ V ++ " promoted successfully") := by
  unfold promote_version
  rw [if_neg]
  rintro ⟨hfalse, hff⟩
  rcases h with hmem | hforce
  · rw [any_version_of_mem hmem] at hfalse
    cases hfalse
  · rw [hforce] at hff
    cases hff

theorem promoteApply_cached_self {V : Version} {s : VMState} (force : Bool)
    (hcur : get_current_version s = some V) :
    (promoteApply V force s).cachedDb = s.cachedDb
    ∧ (promoteApply V force s).cachedManifest = s.cachedManifest := by
  unfold promoteApply
  rw [hcur]
  simp only
  rw [if_neg]
  · exact ⟨rfl, rfl⟩
  · rintro ⟨-, hne⟩
    exact hne rfl

/-- Membership in the removal schedule of `cleanup_old_versions`: walking
the ranking from index `i`, a version is scheduled exactly when it is not
current and appears among the entries ranked at position `keep_count` or
later. -/
theorem mem_versionsToRemove (c : Option Version) (keep : Nat) (v : Version) :
    ∀ (l : List VersionInfo) (i : Nat),
      v ∈ versionsToRemove c keep i l ↔
        some v ≠ c ∧ v ∈ (l.drop (keep - i)).map VersionInfo.version := by
  intro l
  induction l with
  | nil => intro i; simp [versionsToRemove]
  | cons vi rest ih =>
    intro i
    by_cases hk : keep ≤ i
    · have h0 : keep - i = 0 := Nat.sub_eq_zero_of_le hk
      have h1 : keep - (i + 1) = 0 := by omega
      by_cases hvc : some vi.version ≠ c
      · rw [versionsToRemove, if_pos ⟨hvc, hk⟩, List.mem_cons, ih (i + 1), h0, h1,
          List.drop_zero, List.drop_zero]
        constructor
        · rintro (rfl | ⟨hne, hmem⟩)
          · exact ⟨hvc, by simp⟩
          · exact ⟨hne, by simp [hmem]⟩
        · rintro ⟨hne, hmem⟩
          simp only [List.map_cons, List.mem_cons] at hmem
          rcases hmem with h | h
          · exact Or.inl h
          · exact Or.inr ⟨hne, h⟩
      · push_neg at hvc
        rw [versionsToRemove, if_neg (by rintro ⟨h, -⟩; exact h hvc), ih (i + 1), h0, h1,
          List.drop_zero, List.drop_zero]
        constructor
        · rintro ⟨hne, hmem⟩
          exact ⟨hne, by simp [hmem]⟩
        · rintro ⟨hne, hmem⟩
          simp only [List.map_cons, List.mem_cons] at hmem
          rcases hmem with h | h
          · exact absurd (h ▸ hvc) hne
          · exact ⟨hne, h⟩
    · rw [versionsToRemove, if_neg (by rintro ⟨-, hle⟩; omega), ih (i + 1)]
      have hsucc : keep - i = (keep - (i + 1)) + 1 := by omega
      rw [hsucc, List.drop_succ_cons]

/-- Folding `_invalidate_cache` over a removal list filters the cached
file sets and leaves the pointer file alone. -/
theorem foldl_invalidate (rs : List Version) (s : VMState) :
    (rs.foldl (fun st v => _invalidate_cache v st) s).cachedDb
        = s.cachedDb.filter (fun x => decide (x ∉ rs))
    ∧ (rs.foldl (fun st v => _invalidate_cache v st) s).cachedManifest
        = s.cachedManifest.filter (fun x => decide (x ∉ rs))
    ∧ (rs.foldl (fun st v => _invalidate_cache v st) s).pointerFile = s.pointerFile := by
  induction rs generalizing s with
  | nil => simp
  | cons r rs ih =>
    rcases ih (_invalidate_cache r s) with ⟨h1, h2, h3⟩
    refine ⟨?_, ?_, ?_⟩
    · rw [List.foldl_cons, h1, _invalidate_cache]
      rw [List.filter_filter]
      apply List.filter_congr
      intro x hx
      by_cases hr : x = r
      · subst hr; simp
      · by_cases hm : x ∈ rs <;> simp [hr, hm]
    · rw [List.foldl_cons, h2, _invalidate_cache]
      rw [List.filter_filter]
      apply List.filter_congr
      intro x hx
      by_cases hr : x = r
      · subst hr; simp
      · by_cases hm : x ∈ rs <;> simp [hr, hm]
    · rw [List.foldl_cons, h3, _invalidate_cache]

end VersionManager

/-! ## Claim C1 -/

/-- Claim C1 counterexample: with five known versions `v5 > v4 > v3 > v2 >
v1` ranked by upload time, `v5` current and all five cached,
`cleanup_old_versions(keep_count=2)` removes `v3`, `v2` and `v1` — not
just `v2` and `v1`: the current version is counted inside the first
`keep_count` ranks instead of being granted an extra slot, so `v3`'s
cached database and manifest are deleted, contradicting the claim that
`v3` is retained. -/
theorem c1_counterexample :
    VersionManager.get_current_version fiveS = some "v5"
    ∧ (VersionManager.cleanup_old_versions 2 fiveS).2.2 = ["v3", "v2", "v1"]
    ∧ ("v3" : Version) ∉ (VersionManager.cleanup_old_versions 2 fiveS).1.cachedDb
    ∧ ("v3" : Version) ∉ (VersionManager.cleanup_old_versions 2 fiveS).1.cachedManifest := by
  decide

/-- Claim C1 (amended): for every state and every `keep_count`,
`cleanup_old_versions` retains a cached database (and manifest) file for
`v` exactly when `v` was cached and either `v` is the current version, or
`v` does not rank at position `keep_count` or later in the newest-first
ranking of known versions (so `v` is within the first `keep_count` ranks
or not a known version at all); every other cached version is removed.
The current version receives no extra retention slot beyond the first
`keep_count` ranks: with `keep_count = 2`, five versions `v5 > v4 > v3 >
v2 > v1` and current `v5`, exactly `v3`, `v2` and `v1` are removed. -/
theorem c1_cleanup_retention (s : VMState) (keep : Nat) (v : Version) :
    (v ∈ (VersionManager.cleanup_old_versions keep s).1.cachedDb ↔
      v ∈ s.cachedDb ∧ (some v = VersionManager.get_current_version s
        ∨ v ∉ ((VersionManager.rankedVersions s).drop keep).map VersionInfo.version))
    ∧ (v ∈ (VersionManager.cleanup_old_versions keep s).1.cachedManifest ↔
      v ∈ s.cachedManifest ∧ (some v = VersionManager.get_current_version s
        ∨ v ∉ ((VersionManager.rankedVersions s).drop keep).map VersionInfo.version)) := by
  have hfold := VersionManager.foldl_invalidate
    (VersionManager.versionsToRemove (VersionManager.get_current_version s) keep 0
      (VersionManager.rankedVersions s)) s
  have hmem := VersionManager.mem_versionsToRemove
    (VersionManager.get_current_version s) keep v (VersionManager.rankedVersions s) 0
  rw [Nat.sub_zero] at hmem
  constructor
  · rw [VersionManager.cleanup_old_versions]
    simp only
    rw [hfold.1, List.mem_filter]
    rw [decide_eq_true_eq, hmem]
    push_neg
    constructor
    · rintro ⟨hc, himp⟩
      by_cases heq : some v = VersionManager.get_current_version s
      · exact ⟨hc, Or.inl heq⟩
      · exact ⟨hc, Or.inr (himp heq)⟩
    · rintro ⟨hc, heq | hnm⟩
      · exact ⟨hc, fun hne => absurd heq hne⟩
      · exact ⟨hc, fun _ => hnm⟩
  · rw [VersionManager.cleanup_old_versions]
    simp only
    rw [hfold.2.1, List.mem_filter]
    rw [decide_eq_true_eq, hmem]
    push_neg
    constructor
    · rintro ⟨hc, himp⟩
      by_cases heq : some v = VersionManager.get_current_version s
      · exact ⟨hc, Or.inl heq⟩
      · exact ⟨hc, Or.inr (himp heq)⟩
    · rintro ⟨hc, heq | hnm⟩
      · exact ⟨hc, fun hne => absurd heq hne⟩
      · exact ⟨hc, fun _ => hnm⟩

/-- Witness for the amended C1 at the five-version state: `v3` is ranked
third, `v5` is current, and after cleanup with `keep_count = 2` no cached
file for `v3` remains. -/
theorem c1_witness :
    (("v3" : Version) ∈ (VersionManager.cleanup_old_versions 2 fiveS).1.cachedDb ↔
      ("v3" : Version) ∈ fiveS.cachedDb
        ∧ (some "v3" = VersionManager.get_current_version fiveS
          ∨ ("v3" : Version)
              ∉ ((VersionManager.rankedVersions fiveS).drop 2).map VersionInfo.version))
    ∧ (("v3" : Version) ∈ (VersionManager.cleanup_old_versions 2 fiveS).1.cachedManifest ↔
      ("v3" : Version) ∈ fiveS.cachedManifest
        ∧ (some "v3" = VersionManager.get_current_version fiveS
          ∨ ("v3" : Version)
              ∉ ((VersionManager.rankedVersions fiveS).drop 2).map VersionInfo.version)) :=
  c1_cleanup_retention fiveS 2 "v3"

/-! ## Claim C2 -/

/-- Claim C2 counterexample: at a state whose pointer records `v5`,
promoting `v2` rewrites the pointer file in place; the truncated file is
an observable intermediate state that is neither the previous record nor
the new one, and it no longer reads back as the previous pointer `v5` —
so the write is not an atomic temp-file-and-rename replace and a reader
(or a crash) during the write does not find the previous pointer
authoritative. -/
theorem c2_counterexample :
    PointerFileContent.truncated ∈ promoteWriteObservables "v2" false fiveS
    ∧ PointerFileContent.truncated ≠ encodePointer fiveS.pointerFile
    ∧ PointerFileContent.truncated
        ≠ PointerFileContent.record (VersionManager.promotedRecord "v2" false fiveS)
    ∧ readVersionField PointerFileContent.truncated ≠ some "v5"
    ∧ readVersionField (encodePointer fiveS.pointerFile) = some "v5" := by
  decide

/-- Claim C2 (amended): `promote_version` rewrites the pointer file in
place — `open(file, 'w')` truncates it and `json.dump` then writes the new
record, with no temporary file and no rename — so the write passes through
a truncated intermediate state; every on-disk state observable during the
write is the previous content, the new record, or a state that fails to
parse and reads as "no current version" (never a torn record parsed as a
valid pointer, but also not the previous pointer). -/
theorem c2_pointer_write_observables (s : VMState) (V : Version) (force : Bool) :
    ∀ c ∈ promoteWriteObservables V force s,
      c = encodePointer s.pointerFile
      ∨ c = PointerFileContent.record (VersionManager.promotedRecord V force s)
      ∨ readVersionField c = none := by
  intro c hc
  simp only [promoteWriteObservables, List.mem_cons, List.not_mem_nil, or_false] at hc
  rcases hc with rfl | rfl | rfl
  · exact Or.inl rfl
  · exact Or.inr (Or.inr rfl)
  · exact Or.inr (Or.inl rfl)

/-- Witness for the amended C2 at the truncated intermediate state of a
concrete promotion. -/
theorem c2_witness :
    PointerFileContent.truncated = encodePointer fiveS.pointerFile
    ∨ PointerFileContent.truncated
        = PointerFileContent.record (VersionManager.promotedRecord "v2" false fiveS)
    ∨ readVersionField PointerFileContent.truncated = none :=
  c2_pointer_write_observables fiveS "v2" false PointerFileContent.truncated (by decide)

/-! ## Claim C3 -/

/-- Claim C3: for every version `V` present in the catalog listing and
every prior pointer state, after `promote_version V` succeeds, reading the
pointer returns `V` as current and the recorded `previous_version` is
exactly the version that was current immediately before the promotion
(`none` when there was none). -/
theorem c3_promote_updates_pointer (s : VMState) (V : Version) (force : Bool)
    (hmem : V ∈ (VersionManager.get_available_versions s).map VersionInfo.version) :
    (VersionManager.promote_version V force s).2.1 = true
    ∧ VersionManager.get_current_version (VersionManager.promote_version V force s).1 = some V
    ∧ ((VersionManager.promote_version V force s).1.pointerFile.map
         PointerRecord.previous_version) = some (VersionManager.get_current_version s) := by
  have hs := VersionManager.promote_succeeds_of_mem force hmem
  have hp := VersionManager.promote_pointerFile hs
  refine ⟨hs, ?_, ?_⟩
  · rw [VersionManager.get_current_version, hp]; rfl
  · rw [hp]; rfl

/-- Witness for C3 at a concrete state: promoting `v2` while `v5` is
current succeeds, makes `v2` current, and records `v5` as previous. -/
theorem c3_witness :
    (VersionManager.promote_version "v2" false fiveS).2.1 = true
    ∧ VersionManager.get_current_version (VersionManager.promote_version "v2" false fiveS).1
        = some "v2"
    ∧ ((VersionManager.promote_version "v2" false fiveS).1.pointerFile.map
         PointerRecord.previous_version)
        = some (VersionManager.get_current_version fiveS) :=
  c3_promote_updates_pointer fiveS "v2" false (by decide)

/-! ## Claim C4 -/

/-- Claim C4: promoting a version absent from the catalog listing without
force fails with the validation message and leaves the state (pointer
included) untouched, while promoting with force succeeds regardless of the
version's presence and records `force_promotion = true` in the pointer
record. -/
theorem c4_promote_validation (s : VMState) (V : Version) :
    (V ∉ (VersionManager.get_available_versions s).map VersionInfo.version →
       VersionManager.promote_version V false s
         = (s, false, "Version " ++ V ++ " not found in available versions"))
    ∧ (VersionManager.promote_version V true s).2.1 = true
    ∧ ((VersionManager.promote_version V true s).1.pointerFile.map
         PointerRecord.force_promotion) = some true := by
  constructor
  · intro habs
    unfold VersionManager.promote_version
    rw [if_pos]
    refine ⟨?_, rfl⟩
    rw [Bool.eq_false_iff]
    intro hany
    rw [List.any_eq_true] at hany
    obtain ⟨vi, hvi, hbeq⟩ := hany
    exact habs (List.mem_map.mpr ⟨vi, hvi, by simpa using hbeq⟩)
  · have hs : (VersionManager.promote_version V true s).2.1 = true := by
      unfold VersionManager.promote_version
      rw [if_neg (by simp)]
    refine ⟨hs, ?_⟩
    rw [VersionManager.promote_pointerFile hs]
    rfl

/-- Witness for C4 at a concrete state: `vX` is absent from the five
version catalog; unforced promotion fails and changes nothing, forced
promotion succeeds and records the forced flag. -/
theorem c4_witness :
    (("vX" : Version) ∉ (VersionManager.get_available_versions fiveS).map VersionInfo.version →
       VersionManager.promote_version "vX" false fiveS
         = (fiveS, false, "Version " ++ "vX" ++ " not found in available versions"))
    ∧ (VersionManager.promote_version "vX" true fiveS).2.1 = true
    ∧ ((VersionManager.promote_version "vX" true fiveS).1.pointerFile.map
         PointerRecord.force_promotion) = some true :=
  c4_promote_validation fiveS "vX"

/-! ## Claim C8 -/

/-- Claim C8 counterexample: two promotions of `v2` from states whose
current versions differ (`v5` and `v0`) return the very same
`(success, message)` value, so the return value of `promote_version` does
not carry the previously current version; the claim that promote returns
the previous version to the caller is false on the code. -/
theorem c8_counterexample :
    VersionManager.get_current_version fiveS = some "v5"
    ∧ VersionManager.get_current_version fiveS0 = some "v0"
    ∧ (VersionManager.promote_version "v2" false fiveS).2.1 = true
    ∧ (VersionManager.promote_version "v2" false fiveS0).2.1 = true
    ∧ (VersionManager.promote_version "v2" false fiveS).2
        = (VersionManager.promote_version "v2" false fiveS0).2 := by
  decide

/-- Claim C8 (amended): a successful `promote_version` returns only the
success flag and a fixed message naming the promoted version; the
previously current version is logged but is not part of the return
value. -/
theorem c8_promote_return (s : VMState) (V : Version) (force : Bool)
    (h : (VersionManager.promote_version V force s).2.1 = true) :
    (VersionManager.promote_version V force s).2
      = (true, "Version " ++ V ++ " promoted successfully") := by
  by_cases hc : ((VersionManager.get_available_versions s).any fun v => v.version == V) = false
      ∧ force = false
  · unfold VersionManager.promote_version at h
    rw [if_pos hc] at h
    simp at h
  · unfold VersionManager.promote_version
    rw [if_neg hc]

/-- Witness for the amended C8: the concrete successful promotion of `v2`
returns exactly the fixed success pair. -/
theorem c8_witness :
    (VersionManager.promote_version "v2" false fiveS).2
      = (true, "Version " ++ "v2" ++ " promoted successfully") :=
  c8_promote_return fiveS "v2" false (by decide)

/-! ## Claim C10 -/

/-- Claim C10 counterexample: `v9` is the current version of `orphanS` but
is absent from the catalog (it was force-promoted), and `promote_version
"v9"` without force fails rather than succeeding; the claim that promoting
the already current version always succeeds is false on the code. -/
theorem c10_counterexample :
    VersionManager.get_current_version orphanS = some "v9"
    ∧ (VersionManager.promote_version "v9" false orphanS).2.1 = false
    ∧ (VersionManager.promote_version "v9" false orphanS).1 = orphanS := by
  decide

/-- Claim C10 (amended): for every version `V` that is already current,
whenever `V` still appears in the catalog listing or the promotion is
forced, `promote_version V` succeeds, rewrites the pointer with
`previous_version` equal to `V` itself, and deletes no cached database or
manifest files (the invalidation step is skipped because the previous
version equals the newly promoted one). -/
theorem c10_self_promotion (s : VMState) (V : Version) (force : Bool)
    (hcur : VersionManager.get_current_version s = some V)
    (hok : V ∈ (VersionManager.get_available_versions s).map VersionInfo.version
      ∨ force = true) :
    (VersionManager.promote_version V force s).2.1 = true
    ∧ ((VersionManager.promote_version V force s).1.pointerFile.map
         PointerRecord.previous_version) = some (some V)
    ∧ (VersionManager.promote_version V force s).1.cachedDb = s.cachedDb
    ∧ (VersionManager.promote_version V force s).1.cachedManifest = s.cachedManifest := by
  have heq := VersionManager.promote_applies force hok
  have hs : (VersionManager.promote_version V force s).2.1 = true := by
    rw [heq]
  have hcached := VersionManager.promoteApply_cached_self force hcur
  refine ⟨hs, ?_, ?_, ?_⟩
  · rw [VersionManager.promote_pointerFile hs]
    simp [VersionManager.promotedRecord, hcur]
  · rw [heq]
    exact hcached.1
  · rw [heq]
    exact hcached.2

/-- Witness for the amended C10, exercising the forced branch: `v9` is the
current version of `orphanS` but absent from the catalog; the forced
re-promotion succeeds, records `v9` as its own previous version, and
leaves every cached file in place. -/
theorem c10_witness :
    (VersionManager.promote_version "v9" true orphanS).2.1 = true
    ∧ ((VersionManager.promote_version "v9" true orphanS).1.pointerFile.map
         PointerRecord.previous_version) = some (some "v9")
    ∧ (VersionManager.promote_version "v9" true orphanS).1.cachedDb = orphanS.cachedDb
    ∧ (VersionManager.promote_version "v9" true orphanS).1.cachedManifest
        = orphanS.cachedManifest :=
  c10_self_promotion orphanS "v9" true (by decide) (Or.inr rfl)

/-! ## DatabaseManager concrete states and eviction lemmas -/

/-- A remote store publishing a single version `v1` with a well-formed
manifest, an existing snapshot object of 100 bytes, and intact content. -/
def demoStore : RemoteStore :=
  { manifests := ["v1"]
    snapshotEntry := fun v => v == "v1"
    snapshotPresent := fun v => v == "v1"
    snapshotIntact := fun v => v == "v1"
    snapshotSize := fun _ => 100 }

/-- A cache whose single file belongs to the current version `v1` and is 6
GiB — larger than the whole 5 GiB cache budget. -/
def oversizeS : DBState :=
  { store := demoStore, pointer := some "v1"
    dbCache := [⟨"v1", 0, true, 6442450944⟩], manifestCache := ["v1"]
    connVersion := none, conn := none, nextId := 0, now := 0 }

namespace DatabaseManager

theorem totalSize_sublist : ∀ {l1 l2 : List DbCacheFile}, l1.Sublist l2 →
    totalSize l1 ≤ totalSize l2 := by
  intro l1 l2 h
  induction h with
  | slnil => exact Nat.le_refl _
  | cons a _ ih =>
    simp only [totalSize, List.map_cons, List.sum_cons] at *
    omega
  | cons₂ a _ ih =>
    simp only [totalSize, List.map_cons, List.sum_cons] at *
    omega

theorem mem_insertAscMtime {a x : DbCacheFile} {l : List DbCacheFile} :
    a ∈ insertAscMtime x l ↔ a = x ∨ a ∈ l := by
  induction l with
  | nil => simp [insertAscMtime]
  | cons y ys ih =>
    simp only [insertAscMtime]
    split
    · simp [ih]; tauto
    · simp

theorem mem_sortAscMtime {a : DbCacheFile} {l : List DbCacheFile} :
    a ∈ sortAscMtime l ↔ a ∈ l := by
  induction l with
  | nil => simp [sortAscMtime]
  | cons x xs ih =>
    simp only [sortAscMtime, List.foldr_cons] at *
    rw [mem_insertAscMtime, ih]
    simp

/-- The deletion loop keeps the running total within budget whenever the
files of the protected current version fit in the budget: the loop either
stops early with the recomputed total within the limit, or runs out of
deletable files, at which point only the current version's files remain. -/
theorem cleanupCacheGo_budget (c : Option Version) (B : Nat) :
    ∀ (queue dir : List DbCacheFile),
      totalSize (dir.filter (fun f => decide (some f.version = c))) ≤ B →
      (∀ g ∈ dir, some g.version = c ∨ g.version ∈ queue.map DbCacheFile.version) →
      totalSize (cleanupCacheGo c B queue dir) ≤ B := by
  intro queue
  induction queue with
  | nil =>
    intro dir hfit hinv
    rw [cleanupCacheGo]
    have hall : dir.filter (fun f => decide (some f.version = c)) = dir := by
      apply List.filter_eq_self.mpr
      intro a ha
      rcases hinv a ha with h | h
      · exact decide_eq_true h
      · simp at h
    rw [hall] at hfit
    exact hfit
  | cons f rest ih =>
    intro dir hfit hinv
    rw [cleanupCacheGo]
    by_cases hc : some f.version = c
    · rw [if_pos hc]
      apply ih dir hfit
      intro g hg
      rcases hinv g hg with h | h
      · exact Or.inl h
      · simp only [List.map_cons, List.mem_cons] at h
        rcases h with h | h
        · exact Or.inl (h ▸ hc)
        · exact Or.inr h
    · rw [if_neg hc]
      simp only
      by_cases hb : totalSize (dir.filter (fun g => g.version != f.version)) ≤ B
      · rw [if_pos hb]
        exact hb
      · rw [if_neg hb]
        apply ih
        · have hsub : ((dir.filter (fun g => g.version != f.version)).filter
              (fun g => decide (some g.version = c))).Sublist
              (dir.filter (fun g => decide (some g.version = c))) :=
            (List.filter_sublist dir).filter _
          exact le_trans (totalSize_sublist hsub) hfit
        · intro g hg
          have hgd := List.mem_filter.mp hg
          rcases hinv g hgd.1 with h | h
          · exact Or.inl h
          · simp only [List.map_cons, List.mem_cons] at h
            rcases h with h | h
            · exfalso
              have hne := hgd.2
              rw [h] at hne
              simp at hne
            · exact Or.inr h

/-- The deletion loop never unlinks a file of the current version. -/
theorem cleanupCacheGo_keeps_current (c : Option Version) (B : Nat) :
    ∀ (queue dir : List DbCacheFile) (g : DbCacheFile), g ∈ dir → some g.version = c →
      g ∈ cleanupCacheGo c B queue dir := by
  intro queue
  induction queue with
  | nil =>
    intro dir g hg _
    rw [cleanupCacheGo]
    exact hg
  | cons f rest ih =>
    intro dir g hg hgc
    rw [cleanupCacheGo]
    by_cases hc : some f.version = c
    · rw [if_pos hc]
      exact ih dir g hg hgc
    · rw [if_neg hc]
      simp only
      have hgne : g.version ≠ f.version := fun h => hc (h ▸ hgc)
      have hg1 : g ∈ dir.filter (fun x => x.version != f.version) :=
        List.mem_filter.mpr ⟨hg, by simp [hgne]⟩
      by_cases hb : totalSize (dir.filter (fun x => x.version != f.version)) ≤ B
      · rw [if_pos hb]
        exact hg1
      · rw [if_neg hb]
        exact ih _ g hg1 hgc

/-- Deleting a non-current version's file leaves the current version's
files in the directory untouched. -/
theorem filter_current_of_filter_ne {c : Option Version} {fv : Version}
    (hfc : ¬ some fv = c) (dir : List DbCacheFile) :
    (dir.filter (fun g => g.version != fv)).filter
        (fun g => decide (some g.version = c))
      = dir.filter (fun g => decide (some g.version = c)) := by
  rw [List.filter_filter]
  apply List.filter_congr
  intro x _
  by_cases hxc : some x.version = c
  · have hne : x.version ≠ fv := by
      intro he
      exact hfc (he ▸ hxc)
    simp [hxc, hne]
  · simp [hxc]

/-- When even the protected current-version files exceed the budget, the
deletion loop never reaches its early stop: it deletes every other file in
the queue, and exactly the current version's files remain. -/
theorem cleanupCacheGo_over (c : Option Version) (B : Nat) :
    ∀ (queue dir : List DbCacheFile),
      B < totalSize (dir.filter (fun f => decide (some f.version = c))) →
      (∀ g ∈ dir, some g.version = c ∨ g.version ∈ queue.map DbCacheFile.version) →
      cleanupCacheGo c B queue dir
        = dir.filter (fun f => decide (some f.version = c)) := by
  intro queue
  induction queue with
  | nil =>
    intro dir _ hinv
    rw [cleanupCacheGo]
    symm
    apply List.filter_eq_self.mpr
    intro a ha
    rcases hinv a ha with h | h
    · exact decide_eq_true h
    · simp at h
  | cons f rest ih =>
    intro dir hover hinv
    rw [cleanupCacheGo]
    by_cases hc : some f.version = c
    · rw [if_pos hc]
      apply ih dir hover
      intro g hg
      rcases hinv g hg with h | h
      · exact Or.inl h
      · simp only [List.map_cons, List.mem_cons] at h
        rcases h with h | h
        · exact Or.inl (h ▸ hc)
        · exact Or.inr h
    · rw [if_neg hc]
      simp only
      have hpres := filter_current_of_filter_ne hc dir
      have hstay : ¬ totalSize (dir.filter (fun g => g.version != f.version)) ≤ B := by
        intro hle
        have hsub : ((dir.filter (fun g => g.version != f.version)).filter
            (fun g => decide (some g.version = c))).Sublist
            (dir.filter (fun g => g.version != f.version)) := List.filter_sublist _
        rw [hpres] at hsub
        have hmono := totalSize_sublist hsub
        omega
      rw [if_neg hstay]
      have hover1 : B < totalSize ((dir.filter (fun g => g.version != f.version)).filter
          (fun g => decide (some g.version = c))) := by
        rw [hpres]
        exact hover
      have hinv1 : ∀ g ∈ dir.filter (fun g => g.version != f.version),
          some g.version = c ∨ g.version ∈ rest.map DbCacheFile.version := by
        intro g hg
        have hgd := List.mem_filter.mp hg
        rcases hinv g hgd.1 with h | h
        · exact Or.inl h
        · simp only [List.map_cons, List.mem_cons] at h
          rcases h with h | h
          · exfalso
            have hne := hgd.2
            rw [h] at hne
            simp at hne
          · exact Or.inr h
      rw [ih _ hover1 hinv1]
      exact hpres

end DatabaseManager

/-! ## Claim C5 -/

/-- Claim C5 counterexample: a cache holding one 6 GiB file that belongs
to the current version exceeds the 5 GiB budget, and `cleanup_old_cache`
deletes nothing (the only file is protected), leaving the total above the
budget — so size-bounded eviction does not always leave the total within
the budget. -/
theorem c5_counterexample :
    MAX_CACHE_SIZE_BYTES < DatabaseManager.totalSize oversizeS.dbCache
    ∧ (DatabaseManager.cleanup_old_cache oversizeS).dbCache = oversizeS.dbCache
    ∧ MAX_CACHE_SIZE_BYTES
        < DatabaseManager.totalSize (DatabaseManager.cleanup_old_cache oversizeS).dbCache := by
  decide

/-- Claim C5 (amended): for every size budget `B` and cached files summing
to more than `B`, size-bounded eviction deletes files oldest-modified
first, recomputes the total after each deletion, and stops as soon as the
total is within budget.  Unconditionally, it never deletes a file of the
current version.  When the current version's own cached files fit within
`B`, the final total is at most `B`.  When even the protected files exceed
`B`, every other file is deleted — exactly the current version's files
remain — and the total necessarily stays above `B`. -/
theorem c5_eviction_budget (current : Option Version) (B : Nat)
    (files : List DbCacheFile)
    (hover : B < DatabaseManager.totalSize files) :
    (∀ f ∈ files, some f.version = current →
        f ∈ DatabaseManager.evictToBudget current B files)
    ∧ (DatabaseManager.totalSize
          (files.filter (fun f => decide (some f.version = current))) ≤ B →
        DatabaseManager.totalSize (DatabaseManager.evictToBudget current B files) ≤ B)
    ∧ (B < DatabaseManager.totalSize
          (files.filter (fun f => decide (some f.version = current))) →
        DatabaseManager.evictToBudget current B files
          = files.filter (fun f => decide (some f.version = current))
        ∧ B < DatabaseManager.totalSize
            (DatabaseManager.evictToBudget current B files)) := by
  have hinv0 : ∀ g ∈ files, some g.version = current
      ∨ g.version ∈ (DatabaseManager.sortAscMtime files).map DbCacheFile.version := by
    intro g hg
    by_cases hc : some g.version = current
    · exact Or.inl hc
    · exact Or.inr (List.mem_map.mpr ⟨g, DatabaseManager.mem_sortAscMtime.mpr hg, rfl⟩)
  refine ⟨?_, ?_, ?_⟩
  · intro f hf hfc
    rw [DatabaseManager.evictToBudget, if_pos hover]
    exact DatabaseManager.cleanupCacheGo_keeps_current current B
      (DatabaseManager.sortAscMtime files) files f hf hfc
  · intro hfit
    rw [DatabaseManager.evictToBudget, if_pos hover]
    exact DatabaseManager.cleanupCacheGo_budget current B
      (DatabaseManager.sortAscMtime files) files hfit hinv0
  · intro hbig
    have heq : DatabaseManager.evictToBudget current B files
        = files.filter (fun f => decide (some f.version = current)) := by
      rw [DatabaseManager.evictToBudget, if_pos hover]
      exact DatabaseManager.cleanupCacheGo_over current B
        (DatabaseManager.sortAscMtime files) files hbig hinv0
    refine ⟨heq, ?_⟩
    rw [heq]
    exact hbig

/-- Witness for the amended C5: three 30-byte files against a 50-byte
budget with `v1` current and oldest-but-protected; eviction keeps the
current version's file, and since the protected file fits the budget the
final total is within budget. -/
theorem c5_witness :
    (∀ f ∈ ([⟨"v1", 0, true, 30⟩, ⟨"v2", 1, true, 30⟩,
          ⟨"v3", 2, true, 30⟩] : List DbCacheFile), some f.version = some "v1" →
        f ∈ DatabaseManager.evictToBudget (some "v1") 50
          [⟨"v1", 0, true, 30⟩, ⟨"v2", 1, true, 30⟩, ⟨"v3", 2, true, 30⟩])
    ∧ (DatabaseManager.totalSize
          (([⟨"v1", 0, true, 30⟩, ⟨"v2", 1, true, 30⟩, ⟨"v3", 2, true, 30⟩]
            : List DbCacheFile).filter
              (fun f => decide (some f.version = some "v1"))) ≤ 50 →
        DatabaseManager.totalSize
          (DatabaseManager.evictToBudget (some "v1") 50
            [⟨"v1", 0, true, 30⟩, ⟨"v2", 1, true, 30⟩, ⟨"v3", 2, true, 30⟩]) ≤ 50)
    ∧ (50 < DatabaseManager.totalSize
          (([⟨"v1", 0, true, 30⟩, ⟨"v2", 1, true, 30⟩, ⟨"v3", 2, true, 30⟩]
            : List DbCacheFile).filter
              (fun f => decide (some f.version = some "v1"))) →
        DatabaseManager.evictToBudget (some "v1") 50
            [⟨"v1", 0, true, 30⟩, ⟨"v2", 1, true, 30⟩, ⟨"v3", 2, true, 30⟩]
          = ([⟨"v1", 0, true, 30⟩, ⟨"v2", 1, true, 30⟩, ⟨"v3", 2, true, 30⟩]
            : List DbCacheFile).filter
              (fun f => decide (some f.version = some "v1"))
        ∧ 50 < DatabaseManager.totalSize
            (DatabaseManager.evictToBudget (some "v1") 50
              [⟨"v1", 0, true, 30⟩, ⟨"v2", 1, true, 30⟩, ⟨"v3", 2, true, 30⟩])) :=
  c5_eviction_budget (some "v1") 50
    [⟨"v1", 0, true, 30⟩, ⟨"v2", 1, true, 30⟩, ⟨"v3", 2, true, 30⟩] (by decide)

/-! ## Acquire-path lemmas -/

namespace DatabaseManager

/-- A cache check that reports valid produced exactly one integrity-check
event. -/
theorem is_cache_valid_of_true {s : DBState} {v : Version}
    (h : (is_cache_valid s v).1 = true) :
    is_cache_valid s v = (true, [Event.integrityCheck v]) := by
  unfold is_cache_valid at *
  cases hf : s.dbCache.find? (fun f => f.version == v) with
  | none => rw [hf] at h; cases h
  | some f =>
    rw [hf] at h
    dsimp only at h ⊢
    by_cases ht : DATABASE_CACHE_TTL < s.now - f.mtime
    · rw [if_pos ht] at h; cases h
    · rw [if_neg ht] at h ⊢
      rw [show f.intact = true from h]

/-- `is_cache_valid` reads only the cache directory and the clock. -/
theorem is_cache_valid_congr {s s' : DBState} (v : Version)
    (hdb : s'.dbCache = s.dbCache) (hnow : s'.now = s.now) :
    is_cache_valid s' v = is_cache_valid s v := by
  unfold is_cache_valid
  rw [hdb, hnow]

/-- Cache-check events never touch the held connection. -/
theorem is_cache_valid_handle_free (s : DBState) (v : Version) :
    ∀ e ∈ (is_cache_valid s v).2, isHandleEvent e = false := by
  unfold is_cache_valid
  cases hf : s.dbCache.find? (fun f => f.version == v) with
  | none => simp
  | some f =>
    dsimp only
    by_cases ht : DATABASE_CACHE_TTL < s.now - f.mtime
    · rw [if_pos ht]; simp
    · rw [if_neg ht]
      intro e he
      simp only [List.mem_singleton] at he
      rw [he]
      rfl

/-- A successful download emitted the manifest fetch, the snapshot fetch
and the integrity check, left a fresh intact copy in the cache (so the
cache check passes on the post-state), and did not touch the clock, the
held connection, or the id counter. -/
theorem download_success {s : DBState} {v : Version}
    (hok : (download_database_from_s3 s v).2.1 = true) :
    (download_database_from_s3 s v).2.2
      = [Event.getManifest v, Event.getSnapshot v, Event.integrityCheck v]
    ∧ (is_cache_valid (download_database_from_s3 s v).1 v).1 = true
    ∧ (download_database_from_s3 s v).1.now = s.now
    ∧ (download_database_from_s3 s v).1.conn = s.conn
    ∧ (download_database_from_s3 s v).1.nextId = s.nextId := by
  unfold download_database_from_s3 at hok ⊢
  by_cases h1 : v ∈ s.store.manifests
  · rw [if_pos h1] at hok ⊢
    by_cases h2 : s.store.snapshotEntry v = true
    · rw [if_pos h2] at hok ⊢
      by_cases h3 : s.store.snapshotPresent v = true
      · rw [if_pos h3] at hok ⊢
        by_cases h4 : s.store.snapshotIntact v = true
        · rw [if_pos h4] at hok ⊢
          refine ⟨rfl, ?_, rfl, rfl, rfl⟩
          unfold is_cache_valid
          rw [List.find?_cons_of_pos _ (by simp)]
          simp only [Nat.sub_self]
          rw [if_neg (by simp [DATABASE_CACHE_TTL])]
          exact h4
        · rw [if_neg h4] at hok
          cases hok
      · rw [if_neg h3] at hok
        cases hok
    · rw [if_neg h2] at hok
      cases hok
  · rw [if_neg h1] at hok
    cases hok

/-- Download events never touch the held connection. -/
theorem download_handle_free (s : DBState) (v : Version) :
    ∀ e ∈ (download_database_from_s3 s v).2.2, isHandleEvent e = false := by
  unfold download_database_from_s3
  by_cases h1 : v ∈ s.store.manifests
  · rw [if_pos h1]
    by_cases h2 : s.store.snapshotEntry v = true
    · rw [if_pos h2]
      by_cases h3 : s.store.snapshotPresent v = true
      · rw [if_pos h3]
        by_cases h4 : s.store.snapshotIntact v = true
        · rw [if_pos h4]
          intro e he
          simp only [List.mem_cons, List.not_mem_nil, or_false] at he
          rcases he with rfl | rfl | rfl <;> rfl
        · rw [if_neg h4]
          intro e he
          simp only [List.mem_cons, List.not_mem_nil, or_false] at he
          rcases he with rfl | rfl | rfl <;> rfl
      · rw [if_neg h3]
        intro e he
        simp only [List.mem_cons, List.not_mem_nil, or_false] at he
        rcases he with rfl | rfl <;> rfl
    · rw [if_neg h2]
      intro e he
      simp only [List.mem_cons, List.not_mem_nil, or_false] at he
      rcases he with rfl
      rfl
  · rw [if_neg h1]
    intro e he
    simp only [List.mem_cons, List.not_mem_nil, or_false] at he
    rcases he with rfl
    rfl

/-- A successful ensure step leaves a valid cached copy and does not touch
the held connection or the id counter. -/
theorem acquireEnsure_ok {s : DBState} {v : Version}
    (hok : (acquireEnsure s v).2.1 = true) :
    (is_cache_valid (acquireEnsure s v).1 v).1 = true
    ∧ (acquireEnsure s v).1.conn = s.conn
    ∧ (acquireEnsure s v).1.nextId = s.nextId := by
  unfold acquireEnsure at *
  by_cases hcv : (is_cache_valid s v).1 = false
  · rw [if_pos hcv] at hok ⊢
    dsimp only at hok ⊢
    have hd := download_success hok
    exact ⟨hd.2.1, hd.2.2.2.1, hd.2.2.2.2⟩
  · rw [if_neg hcv] at hok ⊢
    dsimp only
    refine ⟨?_, rfl, rfl⟩
    cases hb : (is_cache_valid s v).1 with
    | false => exact absurd hb hcv
    | true => rfl

/-- The ensure step emits only fetch and integrity events. -/
theorem acquireEnsure_handle_free (s : DBState) (v : Version) :
    ∀ e ∈ (acquireEnsure s v).2.2, isHandleEvent e = false := by
  unfold acquireEnsure
  by_cases hcv : (is_cache_valid s v).1 = false
  · rw [if_pos hcv]
    dsimp only
    intro e he
    rcases List.mem_append.mp he with h | h
    · exact is_cache_valid_handle_free s v e h
    · exact download_handle_free s v e h
  · rw [if_neg hcv]
    exact is_cache_valid_handle_free s v

/-- The download never changes the held connection. -/
theorem download_conn (s : DBState) (v : Version) :
    (download_database_from_s3 s v).1.conn = s.conn := by
  unfold download_database_from_s3
  by_cases h1 : v ∈ s.store.manifests
  · rw [if_pos h1]
    by_cases h2 : s.store.snapshotEntry v = true
    · rw [if_pos h2]
      by_cases h3 : s.store.snapshotPresent v = true
      · rw [if_pos h3]
        by_cases h4 : s.store.snapshotIntact v = true
        · rw [if_pos h4]
        · rw [if_neg h4]
      · rw [if_neg h3]
    · rw [if_neg h2]
  · rw [if_neg h1]

/-- The ensure step never changes the held connection (the download writes
only cache files). -/
theorem acquireEnsure_conn (s : DBState) (v : Version) :
    (acquireEnsure s v).1.conn = s.conn := by
  unfold acquireEnsure
  by_cases hcv : (is_cache_valid s v).1 = false
  · rw [if_pos hcv]
    dsimp only
    exact download_conn s v
  · rw [if_neg hcv]

/-- The fast path of `get_database_connection`: when the held connection
is already bound to `version` and the cached copy is valid, the state is
untouched and the same handle is returned. -/
theorem acquire_fast {s : DBState} {v : Version} {h : Nat}
    (hv : ¬ v = "") (hver : s.connVersion = some v)
    (hcv : (is_cache_valid s v).1 = true) (hconn : s.conn = some h) :
    get_database_connection s (some v) = (s, some h, (is_cache_valid s v).2) := by
  unfold get_database_connection
  dsimp only
  rw [if_neg hv]
  rw [if_neg (by
    rintro (hne | hfalse | hnone)
    · exact hne hver
    · rw [hcv] at hfalse; cases hfalse
    · rw [hconn] at hnone; cases hnone)]
  rw [hconn, if_pos hver]

/-- Whenever `get_database_connection` returns a handle, the post-state is
bound to the requested version via that handle and holds a valid cached
copy of it. -/
theorem acquire_success_state {s : DBState} {v : Version} {h : Nat}
    (hs : (get_database_connection s (some v)).2.1 = some h) :
    ¬ v = ""
    ∧ (get_database_connection s (some v)).1.connVersion = some v
    ∧ (get_database_connection s (some v)).1.conn = some h
    ∧ (is_cache_valid (get_database_connection s (some v)).1 v).1 = true := by
  by_cases hv : v = ""
  · unfold get_database_connection at hs
    dsimp only at hs
    rw [if_pos hv] at hs
    cases hs
  · refine ⟨hv, ?_⟩
    unfold get_database_connection at hs ⊢
    dsimp only at hs ⊢
    rw [if_neg hv] at hs ⊢
    by_cases hcond : s.connVersion ≠ some v ∨ (is_cache_valid s v).1 = false ∨ s.conn = none
    · rw [if_pos hcond] at hs ⊢
      by_cases hok : (acquireEnsure s v).2.1 = true
      · rw [if_pos hok] at hs ⊢
        have he := acquireEnsure_ok hok
        unfold acquireOpen at hs ⊢
        dsimp only at hs ⊢
        exact ⟨rfl, hs, he.1⟩
      · rw [if_neg hok] at hs
        dsimp only at hs
        cases hs
    · rw [if_neg hcond] at hs ⊢
      dsimp only at hs ⊢
      push_neg at hcond
      refine ⟨not_not.mp (fun hne => hne hcond.1), hs, ?_⟩
      cases hb : (is_cache_valid s v).1 with
      | false => exact absurd hb hcond.2.1
      | true => rfl

end DatabaseManager

/-! ## Claim C7 -/

/-- Claim C7: when `get_database_connection` for version `v` returns a
handle, calling it again immediately (no intervening eviction, clock
advance, or cache mutation) returns the very same handle with the state
unchanged, and the only event of the second call is the fast-path
integrity re-check — in particular no manifest or snapshot download is
performed (acquire is idempotent within the TTL). -/
theorem c7_acquire_idempotent (s : DBState) (v : Version) (h : Nat)
    (hs : (DatabaseManager.get_database_connection s (some v)).2.1 = some h) :
    DatabaseManager.get_database_connection
        (DatabaseManager.get_database_connection s (some v)).1 (some v)
      = ((DatabaseManager.get_database_connection s (some v)).1, some h,
         [Event.integrityCheck v])
    ∧ ∀ e ∈ (DatabaseManager.get_database_connection
          (DatabaseManager.get_database_connection s (some v)).1 (some v)).2.2,
        e ≠ Event.getManifest v ∧ e ≠ Event.getSnapshot v := by
  obtain ⟨hv, hver, hconn, hvalid⟩ := DatabaseManager.acquire_success_state hs
  have hfast := DatabaseManager.acquire_fast hv hver hvalid hconn
  rw [DatabaseManager.is_cache_valid_of_true hvalid] at hfast
  refine ⟨hfast, ?_⟩
  rw [hfast]
  intro e he
  simp only [List.mem_singleton] at he
  rw [he]
  constructor
  · intro hc
    cases hc
  · intro hc
    cases hc

/-! ## Claim C6 -/

/-- Claim C6: a cached entry whose file age exceeds the configured TTL is
never reused by acquire without re-running the download and integrity
check: whenever `get_database_connection` returns a handle for an expired
entry, its event trace contains the manifest fetch, the snapshot fetch and
the integrity check — expiry alone forces the full re-verification path
even if the file content is unchanged. -/
theorem c6_expiry_forces_redownload (s : DBState) (v : Version) (f : DbCacheFile) (h : Nat)
    (hf : s.dbCache.find? (fun g => g.version == v) = some f)
    (hexp : DATABASE_CACHE_TTL < s.now - f.mtime)
    (hs : (DatabaseManager.get_database_connection s (some v)).2.1 = some h) :
    Event.getManifest v ∈ (DatabaseManager.get_database_connection s (some v)).2.2
    ∧ Event.getSnapshot v ∈ (DatabaseManager.get_database_connection s (some v)).2.2
    ∧ Event.integrityCheck v
        ∈ (DatabaseManager.get_database_connection s (some v)).2.2 := by
  have hcv : DatabaseManager.is_cache_valid s v = (false, []) := by
    unfold DatabaseManager.is_cache_valid
    rw [hf]
    dsimp only
    rw [if_pos hexp]
  have hv : ¬ v = "" := (DatabaseManager.acquire_success_state hs).1
  unfold DatabaseManager.get_database_connection at hs ⊢
  dsimp only at hs ⊢
  rw [if_neg hv] at hs ⊢
  rw [if_pos (Or.inr (Or.inl (by rw [hcv])))] at hs ⊢
  by_cases hok : (DatabaseManager.acquireEnsure s v).2.1 = true
  · rw [if_pos hok] at hs ⊢
    have hens : (DatabaseManager.acquireEnsure s v).2.2
        = (DatabaseManager.is_cache_valid s v).2
          ++ (DatabaseManager.download_database_from_s3 s v).2.2 := by
      unfold DatabaseManager.acquireEnsure
      rw [if_pos (by rw [hcv])]
    have hdl : (DatabaseManager.download_database_from_s3 s v).2.1 = true := by
      unfold DatabaseManager.acquireEnsure at hok
      rw [if_pos (by rw [hcv])] at hok
      dsimp only at hok
      exact hok
    have hdev := (DatabaseManager.download_success hdl).1
    rw [hens, hcv, hdev]
    refine ⟨?_, ?_, ?_⟩ <;> simp
  · rw [if_neg hok] at hs
    dsimp only at hs
    cases hs

/-! ## Claim C9 -/

/-- A fresh manager state: nothing cached, no connection held. -/
def freshS : DBState :=
  { store := demoStore, pointer := some "v1", dbCache := [], manifestCache := []
    connVersion := none, conn := none, nextId := 0, now := 0 }

/-- A state holding handle 7 on an expired cached copy of `v1` (mtime 0,
clock 5000, TTL 3600). -/
def staleS : DBState :=
  { store := demoStore, pointer := some "v1"
    dbCache := [⟨"v1", 0, true, 100⟩], manifestCache := ["v1"]
    connVersion := some "v1", conn := some 7, nextId := 8, now := 5000 }

namespace DatabaseManager

theorem length_le_maxOpenAlong : ∀ (es : List Event) (hs : List Nat),
    hs.length ≤ maxOpenAlong es hs := by
  intro es
  induction es with
  | nil => intro hs; exact Nat.le_refl _
  | cons e es ih =>
    intro hs
    cases e <;> exact Nat.le_max_left _ _

theorem maxOpenAlong_append_handle_free :
    ∀ (es : List Event), (∀ e ∈ es, isHandleEvent e = false) →
      ∀ (tail : List Event) (hs : List Nat),
        maxOpenAlong (es ++ tail) hs = max hs.length (maxOpenAlong tail hs) := by
  intro es
  induction es with
  | nil =>
    intro _ tail hs
    simp only [List.nil_append]
    exact (Nat.max_eq_right (length_le_maxOpenAlong tail hs)).symm
  | cons e es ih =>
    intro hfree tail hs
    have he : isHandleEvent e = false := hfree e (List.mem_cons_self _ _)
    have hes : ∀ x ∈ es, isHandleEvent x = false :=
      fun x hx => hfree x (List.mem_cons_of_mem _ hx)
    cases e with
    | openHandle h => exact Bool.noConfusion he
    | closeHandle h => exact Bool.noConfusion he
    | getManifest v =>
      show max hs.length (maxOpenAlong (es ++ tail) hs)
        = max hs.length (maxOpenAlong tail hs)
      rw [ih hes tail hs, ← Nat.max_assoc, Nat.max_self]
    | getSnapshot v =>
      show max hs.length (maxOpenAlong (es ++ tail) hs)
        = max hs.length (maxOpenAlong tail hs)
      rw [ih hes tail hs, ← Nat.max_assoc, Nat.max_self]
    | integrityCheck v =>
      show max hs.length (maxOpenAlong (es ++ tail) hs)
        = max hs.length (maxOpenAlong tail hs)
      rw [ih hes tail hs, ← Nat.max_assoc, Nat.max_self]

/-- The short-circuit condition events of `get_database_connection` never
touch the held connection. -/
theorem condEv_handle_free (s : DBState) (v : Version) :
    ∀ e ∈ (if s.connVersion = some v then (is_cache_valid s v).2 else ([] : List Event)),
      isHandleEvent e = false := by
  split
  · exact is_cache_valid_handle_free s v
  · simp

end DatabaseManager

/-- Claim C9: a manager instance holds at most one open database handle at
every point: when `get_database_connection` runs from a state holding
handle `h0` and its trace opens a new handle `hN` (a version switch or a
refresh of an invalid entry), the trace is exactly some download/check
events followed by closing `h0` and then opening `hN` — the old handle is
closed before the new one is opened, and the number of simultaneously open
held connections never exceeds one at any point along the trace. -/
theorem c9_single_handle (s : DBState) (vOpt : Option Version) (h0 hN : Nat)
    (hc : s.conn = some h0)
    (ho : Event.openHandle hN ∈ (DatabaseManager.get_database_connection s vOpt).2.2) :
    maxOpenAlong (DatabaseManager.get_database_connection s vOpt).2.2 (heldList s) ≤ 1
    ∧ ∃ pre, (DatabaseManager.get_database_connection s vOpt).2.2
          = pre ++ [Event.closeHandle h0, Event.openHandle hN]
        ∧ ∀ e ∈ pre, isHandleEvent e = false := by
  revert ho
  unfold DatabaseManager.get_database_connection
  cases hres : (match vOpt with | none => s.pointer | some v => some v) with
  | none =>
    intro ho
    simp at ho
  | some v =>
    intro ho
    dsimp only at ho ⊢
    by_cases hv : v = ""
    · rw [if_pos hv] at ho ⊢
      simp at ho
    · rw [if_neg hv] at ho ⊢
      by_cases hcond : s.connVersion ≠ some v
          ∨ (DatabaseManager.is_cache_valid s v).1 = false ∨ s.conn = none
      · rw [if_pos hcond] at ho ⊢
        by_cases hok : (DatabaseManager.acquireEnsure s v).2.1 = true
        · rw [if_pos hok] at ho ⊢
          have hconn1 : (DatabaseManager.acquireEnsure s v).1.conn = some h0 := by
            rw [DatabaseManager.acquireEnsure_conn]
            exact hc
          unfold DatabaseManager.acquireOpen at ho ⊢
          rw [hconn1] at ho ⊢
          dsimp only at ho ⊢
          have hfreepre : ∀ e ∈ (if s.connVersion = some v
                then (DatabaseManager.is_cache_valid s v).2 else ([] : List Event))
                ++ (DatabaseManager.acquireEnsure s v).2.2,
              isHandleEvent e = false := by
            intro e he
            rcases List.mem_append.mp he with hm | hm
            · exact DatabaseManager.condEv_handle_free s v e hm
            · exact DatabaseManager.acquireEnsure_handle_free s v e hm
          have hNn : hN = (DatabaseManager.acquireEnsure s v).1.nextId := by
            rcases List.mem_append.mp ho with hm | hm
            · exact Bool.noConfusion (hfreepre _ hm)
            · simp at hm
              exact hm
          subst hNn
          have hH : heldList s = [h0] := by
            unfold heldList
            rw [hc]
          constructor
          · rw [hH]
            rw [DatabaseManager.maxOpenAlong_append_handle_free _ hfreepre]
            have hcompute : maxOpenAlong
                ([Event.closeHandle h0]
                  ++ [Event.openHandle (DatabaseManager.acquireEnsure s v).1.nextId])
                [h0] = 1 := by
              show maxOpenAlong
                [Event.closeHandle h0,
                 Event.openHandle (DatabaseManager.acquireEnsure s v).1.nextId] [h0] = 1
              simp [maxOpenAlong]
            rw [hcompute]
            simp
          · exact ⟨_, rfl, hfreepre⟩
        · rw [if_neg hok] at ho
          dsimp only at ho
          rcases List.mem_append.mp ho with hm | hm
          · exact Bool.noConfusion (DatabaseManager.condEv_handle_free s v _ hm)
          · exact Bool.noConfusion (DatabaseManager.acquireEnsure_handle_free s v _ hm)
      · rw [if_neg hcond] at ho
        dsimp only at ho
        exact Bool.noConfusion (DatabaseManager.condEv_handle_free s v _ ho)

/-- Witness for C9: from a state holding handle 7 on an expired cached
copy of `v1`, acquiring `v1` again re-downloads, closes handle 7 and opens
handle 8; the trace keeps at most one held connection open throughout. -/
theorem c9_witness :
    maxOpenAlong (DatabaseManager.get_database_connection staleS (some "v1")).2.2
        (heldList staleS) ≤ 1
    ∧ ∃ pre, (DatabaseManager.get_database_connection staleS (some "v1")).2.2
          = pre ++ [Event.closeHandle 7, Event.openHandle 8]
        ∧ ∀ e ∈ pre, isHandleEvent e = false :=
  c9_single_handle staleS (some "v1") 7 8 (by decide) (by decide)

/-- Witness for C6: at `staleS` the cached copy of `v1` is expired; the
successful acquire re-fetched the manifest and snapshot and re-ran the
integrity check. -/
theorem c6_witness :
    Event.getManifest "v1"
      ∈ (DatabaseManager.get_database_connection staleS (some "v1")).2.2
    ∧ Event.getSnapshot "v1"
      ∈ (DatabaseManager.get_database_connection staleS (some "v1")).2.2
    ∧ Event.integrityCheck "v1"
      ∈ (DatabaseManager.get_database_connection staleS (some "v1")).2.2 :=
  c6_expiry_forces_redownload staleS "v1" ⟨"v1", 0, true, 100⟩ 8
    (by decide) (by decide) (by decide)

/-- Witness for C7: a first acquire of `v1` from the fresh state downloads
and returns handle 0; the immediate second acquire returns the same handle
0, leaves the state unchanged, and performs no download. -/
theorem c7_witness :
    DatabaseManager.get_database_connection
        (DatabaseManager.get_database_connection freshS (some "v1")).1 (some "v1")
      = ((DatabaseManager.get_database_connection freshS (some "v1")).1, some 0,
         [Event.integrityCheck "v1"])
    ∧ ∀ e ∈ (DatabaseManager.get_database_connection
          (DatabaseManager.get_database_connection freshS (some "v1")).1 (some "v1")).2.2,
        e ≠ Event.getManifest "v1" ∧ e ≠ Event.getSnapshot "v1" :=
  c7_acquire_idempotent freshS "v1" 0 (by decide)

end YmsdSleeper
